import Mathlib

/-!
Verification development for the citation-resolution and parenthetical-grouping
core of the repository. The Python implementation modules
(`cl/citations/match_citations.py`, `cl/citations/group_parentheticals.py`,
`cl/citations/score_parentheticals.py`,
`cl/citations/management/commands/cl_add_parallel_citations.py`) are not part of
the provided sources; only their test suite (`cl/citations/tests.py`) is. The
definitions below are therefore modelled from the specification, and validated
against the concrete expectations recorded in the repository's test suite.
-/

/-! ## Character utilities (shared by the tokenizer and the resolver) -/

/-- Whitespace characters recognised by the word splitter, mirroring Python's
`str.split()` on the character classes that occur in parenthetical text. -/
def isWS (c : Char) : Bool :=
  c == ' ' || c == '\n' || c == '\t' || c == '\r'

/-- A character that survives cleaning: a lowercase ASCII letter or digit. -/
def goodChar (c : Char) : Bool :=
  decide ('a' ≤ c ∧ c ≤ 'z') || decide ('0' ≤ c ∧ c ≤ '9')

/-- Lower-casing of a single ASCII character. -/
def toLowerChar (c : Char) : Char :=
  if 'A' ≤ c ∧ c ≤ 'Z' then Char.ofNat (c.toNat + 32) else c

/-- An alphanumeric character of either case (used when stripping trailing
punctuation from antecedent guesses). -/
def isAlnumAny (c : Char) : Bool :=
  decide ('a' ≤ c ∧ c ≤ 'z') || decide ('A' ≤ c ∧ c ≤ 'Z') ||
    decide ('0' ≤ c ∧ c ≤ '9')

/-- Worker for `splitWS`: accumulates the current word in reverse. -/
def splitWSAux : List Char → List Char → List (List Char)
  | [], acc => if acc.isEmpty then [] else [acc.reverse]
  | c :: cs, acc =>
    if isWS c then
      (if acc.isEmpty then splitWSAux cs [] else acc.reverse :: splitWSAux cs [])
    else splitWSAux cs (c :: acc)

/-- Split a character sequence on whitespace, dropping empty fields, as
Python's `str.split()` does. -/
def splitWS (cs : List Char) : List (List Char) :=
  splitWSAux cs []

/-- Join words with single spaces, as `" ".join(tokens)` does. -/
def joinSp : List (List Char) → List Char
  | [] => []
  | [t] => t
  | t :: ts => t ++ ' ' :: joinSp ts

/-- Modelled from the spec: the cleaning stage of the shared tokenizer
(`get_parenthetical_tokens` in the missing `group_parentheticals.py`):
lower-cases and strips punctuation, collapsing parenthetical markers
(`"12(b)(6)" → "12b6"`). -/
def clean (w : List Char) : List Char :=
  (w.map toLowerChar).filter goodChar

/-- Vowels, used by the stemmer's guard conditions. -/
def isVowelCh (c : Char) : Bool :=
  c == 'a' || c == 'e' || c == 'i' || c == 'o' || c == 'u'

/-- Whether a word contains at least one vowel. -/
def hasVowel (w : List Char) : Bool :=
  w.any isVowelCh

/-- Whether a word ends consonant-vowel-consonant (the guard that restores a
final `e`, as in `"ruling" → "rule"`). -/
def endsCVC (w : List Char) : Bool :=
  match w.reverse with
  | c3 :: c2 :: c1 :: _ => !isVowelCh c3 && isVowelCh c2 && !isVowelCh c1
  | _ => false

/-- Modelled from the spec: plural stripping of the stemmer (the spec's
examples `"claims" → "claim"`, `"always" → "alway"`; a double `s` is kept). -/
def stemStep1 (w : List Char) : List Char :=
  if List.isSuffixOf ['s', 's'] w then w
  else if List.isSuffixOf ['s'] w then w.dropLast
  else w

/-- Modelled from the spec: `ed`/`ing` stripping of the stemmer (the spec's
example `"ruling" → "rule"`; both strips require a vowel in the remainder). -/
def stemStep2 (w : List Char) : List Char :=
  if List.isSuffixOf ['e', 'd'] w && hasVowel (w.take (w.length - 2)) then
    w.take (w.length - 2)
  else if List.isSuffixOf ['i', 'n', 'g'] w && hasVowel (w.take (w.length - 3)) then
    (fun r => if r.length ≤ 3 && endsCVC r then r ++ ['e'] else r)
      (w.take (w.length - 3))
  else w

/-- Modelled from the spec: `ation` stripping of the stemmer (the test-suite
example `"allegations" → "alleg"`). -/
def stemStep3 (w : List Char) : List Char :=
  if List.isSuffixOf ['a', 't', 'i', 'o', 'n'] w && hasVowel (w.take (w.length - 5)) then
    w.take (w.length - 5)
  else w

/-- Modelled from the spec: the suffix-stripping stemmer applied to each
remaining token; words of length at most two are left untouched. -/
def stemChars (w : List Char) : List Char :=
  if w.length ≤ 2 then w else stemStep3 (stemStep2 (stemStep1 w))

/-- Modelled from the spec: the stop-word list of the tokenizer, as observable
in the repository's tokenizer test vectors (common English stop words plus the
signal words `holding`/`concluding`). -/
def STOP_WORDS : List (List Char) :=
  [String.toList "a", String.toList "an", String.toList "as",
   String.toList "at", String.toList "because", String.toList "concluding",
   String.toList "holding", String.toList "in", String.toList "that",
   String.toList "the", String.toList "those", String.toList "to"]

/-- Modelled from the spec: the shared tokenizer pipeline over character
lists — split on whitespace, lower-case and strip punctuation, drop empty
tokens, remove stop words, and stem each remaining token, in the order the
spec states them. -/
def tokenize (cs : List Char) : List (List Char) :=
  (((splitWS cs).map clean).filter (fun t => !t.isEmpty)).filter
      (fun t => !(STOP_WORDS.contains t)) |>.map stemChars

/-- Modelled from the spec: `get_parenthetical_tokens` of the missing
`group_parentheticals.py` — converts parenthetical text into its token list. -/
def get_parenthetical_tokens (s : String) : List String :=
  (tokenize s.toList).map (fun t => String.mk t)

/-- Joining a token list back into a string with single spaces
(`" ".join(tokens)`). -/
def rejoinTokens (ts : List String) : String :=
  String.mk (joinSp (ts.map String.toList))

/-! ## Descriptiveness scorer -/

/-- The part of an `OpinionCluster` the scorer consumes: its citation count. -/
structure OpinionCluster where
  citation_count : Nat
deriving DecidableEq

/-- Modelled from the spec: `parenthetical_score` of the missing
`score_parentheticals.py` — a utility score monotonically increasing in the
text's descriptive richness (its informative token count) and dampened, not
dominated, by the described document's citation count; total for every
well-formed text input. -/
def parenthetical_score (text : String) (cluster : OpinionCluster) : ℚ :=
  (1 + (get_parenthetical_tokens text).length) *
    (1 + Nat.log 2 (cluster.citation_count + 1))

/-! ## Similarity graph and connected components -/

/-- An adjacency entry of the similarity graph: either a single scalar
identifier or a list of identifiers, matching the tolerated adjacency
representation noted in the spec. -/
inductive Entry where
  | single (s : String)
  | many (l : List String)
deriving DecidableEq

/-- Coercion of an adjacency entry to a neighbor list: a scalar entry is
treated as a one-element neighbor set. -/
def coerceEntry : Entry → List String
  | .single s => [s]
  | .many l => l

/-- Neighbor lookup in an adjacency mapping (first matching key wins). -/
def neighborsOf (g : List (String × Entry)) (n : String) : List String :=
  match g with
  | [] => []
  | (k, e) :: rest => if k = n then coerceEntry e else neighborsOf rest n

/-- Depth-first traversal with an explicit stack and fuel. The fuel supplied
by `get_graph_component` exceeds the number of stack pops any traversal can
perform (one initial push plus at most one neighbor-list push per graph
entry), so the fuel never runs out and the function computes the same
component as the unbounded recursion in the source. -/
def dfs (g : List (String × Entry)) : Nat → List String → List String → List String
  | 0, _, visited => visited
  | fuel + 1, stack, visited =>
    match stack with
    | [] => visited
    | n :: rest =>
      if n ∈ visited then dfs g fuel rest visited
      else dfs g fuel (neighborsOf g n ++ rest) (visited ++ [n])

/-- Size of an adjacency entry, for the fuel bound. -/
def entrySize : Entry → Nat
  | .single _ => 1
  | .many l => l.length

/-- Fuel bound for the traversal: strictly more than the number of nodes it
can ever pop from its stack. -/
def graphFuel (g : List (String × Entry)) : Nat :=
  g.length + (g.map (fun e => entrySize e.2)).sum + 2

/-- Modelled from the spec: `get_graph_component` of the missing
`group_parentheticals.py` — the connected component of `node` in the adjacency
mapping `g`, tolerating scalar neighbor entries, starting from an explicit
visited set (the tests always pass an empty one). -/
def get_graph_component (node : String) (g : List (String × Entry))
    (visited : List String) : List String :=
  dfs g (graphFuel g) [node] visited

/-! ## Parenthetical grouping and representative selection -/

/-- A parenthetical as the grouping code sees it: its graph key (`str(p.id)`
in the source), its text, and its descriptiveness score. -/
structure Parenthetical where
  key : String
  text : String
  score : Int
deriving DecidableEq

/-- Neighbors of a node inside the subgraph induced on `members`. -/
def inducedNeighbors (g : List (String × Entry)) (members : List String)
    (n : String) : List String :=
  (neighborsOf g n).filter (fun m => decide (m ∈ members))

/-- Degree of a parenthetical in the subgraph induced on `members`. -/
def inducedDegree (g : List (String × Entry)) (members : List String)
    (p : Parenthetical) : Nat :=
  (inducedNeighbors g members p.key).length

/-- The subgraph of `g` induced on `members`, in the same adjacency shape. -/
def inducedGraph (g : List (String × Entry)) (members : List String) :
    List (String × Entry) :=
  members.map (fun n => (n, Entry.many (inducedNeighbors g members n)))

/-- First-wins maximum of `c :: l` by key `f`, breaking ties by the higher
score `s`. -/
def argmaxBy {α : Type} (f : α → Nat) (s : α → Int) (c : α) (l : List α) : α :=
  l.foldl
    (fun best q =>
      if f q > f best ∨ (f q = f best ∧ s q > s best) then q else best) c

/-- Modelled from the spec and the repository's
`test_get_representative_parenthetical` vectors:
`get_representative_parenthetical` of the missing `group_parentheticals.py` —
restrict the similarity graph to the passed-in members, take the connected
component (in that induced subgraph) of the first passed-in member, and within
it select the member of highest induced degree, breaking ties by higher
descriptiveness score. Returns `none` only for an empty input list, on which
the source would fail. -/
def get_representative_parenthetical (pars : List Parenthetical)
    (g : List (String × Entry)) : Option Parenthetical :=
  match pars with
  | [] => none
  | p :: rest =>
    let members := (p :: rest).map (fun q => q.key)
    let comp := get_graph_component p.key (inducedGraph g members) []
    match (p :: rest).filter (fun q => decide (q.key ∈ comp)) with
    | [] => some p
    | c :: cs =>
      some (argmaxBy (inducedDegree g members) (fun q => q.score) c cs)

/-- The similarity graph fixture of the repository's
`test_get_representative_parenthetical`. -/
def simgraphFixture : List (String × Entry) :=
  [("0", .many ["3"]), ("1", .many ["2", "3", "7"]), ("2", .many ["1"]),
   ("3", .many ["0", "1"]), ("4", .many ["5"]), ("5", .many ["4"]),
   ("6", .many []), ("7", .many ["1"])]

/-- A parenthetical fixture like the test suite's `DummyParenthetical`. -/
def parFixture (k : String) : Parenthetical :=
  { key := k, text := "par" ++ k, score := 1 }

/-- The eight parenthetical fixtures of the representative-selection test. -/
def parsFixture : List Parenthetical :=
  [parFixture "0", parFixture "1", parFixture "2", parFixture "3",
   parFixture "4", parFixture "5", parFixture "6", parFixture "7"]

/-! ## Parallel-citation edge lists -/

/-- Modelled from the spec: `make_edge_list` of the missing
`cl_add_parallel_citations.py` — walks the positions of an ordered group and
pairs each node with its successor, mirroring the `enumerate`-style loop such
code uses. -/
def make_edge_list {α : Type} (group : List α) : List (α × α) :=
  (List.range group.length).filterMap
    (fun i =>
      match group.get? i, group.get? (i + 1) with
      | some a, some b => some (a, b)
      | _, _ => none)

/-! ## Citation resolver -/

/-- A citable document of the closed corpus: a volume/reporter/page triple and
a case name from which surname tokens are derived for antecedent matching. -/
structure Document where
  id : Nat
  volume : String
  reporter : String
  page : String
  caseName : String
deriving DecidableEq

/-- A resolution target: a citable document (by id) or the `NO_MATCH`
sentinel (`NO_MATCH_RESOURCE` in the source). -/
inductive Resource where
  | opinion (id : Nat)
  | noMatch
deriving DecidableEq

/-- A citation mention, by kind with its kind-specific fields; its position is
its index in the input sequence. -/
inductive Citation where
  | fullCase (volume reporter page : String)
  | shortCase (volume reporter antecedent : String)
  | supra (antecedent : String)
  | idCitation
  | nonopinion
  | law
  | journal
deriving DecidableEq

/-- The resolver's running state: the resolution map built so far (buckets of
mention indices, in insertion order), the registry of previously resolved
full-citation targets, and the outcome of the immediately preceding mention
(`none` when it was dropped or was a non-opinion mention). -/
structure RState where
  resolutions : List (Resource × List Nat)
  seen : List Document
  prevOutcome : Option Resource
deriving DecidableEq

/-- Append mention index `i` to the bucket of resource `r`, creating the
bucket at the end if absent (like a `defaultdict` of lists). -/
def addTo (r : Resource) (i : Nat) : List (Resource × List Nat) →
    List (Resource × List Nat)
  | [] => [(r, [i])]
  | (r', l) :: rest =>
    if r' = r then (r', l ++ [i]) :: rest else (r', l) :: addTo r i rest

/-- How many times mention index `i` occurs across all buckets of a
resolution map. -/
def countIdx (m : List (Resource × List Nat)) (i : Nat) : Nat :=
  (m.map (fun b => b.2.count i)).sum

/-- The bucket (if any) in which mention index `i` sits. -/
def bucketOf (m : List (Resource × List Nat)) (i : Nat) : Option Resource :=
  match m with
  | [] => none
  | (r, l) :: rest => if i ∈ l then some r else bucketOf rest i

/-- Strip trailing non-alphanumeric characters (so an antecedent guess such
as `"Bar,"` matches like `"Bar"`). -/
def stripTrailingPunct (w : List Char) : List Char :=
  (w.reverse.dropWhile (fun c => !isAlnumAny c)).reverse

/-- Modelled from the spec: antecedent-guess surname matching — the guess,
with trailing punctuation stripped, must equal one of the candidate's
case-name tokens, case-insensitively. -/
def matchGuess (guess : String) (d : Document) : Bool :=
  (splitWS d.caseName.toList).map (fun t => t.map toLowerChar)
    |>.contains ((stripTrailingPunct guess.toList).map toLowerChar)

/-- The candidate pool of a short-form citation: previously seen
full-citation targets with the same volume and reporter. -/
def shortPool (seen : List Document) (v r : String) : List Document :=
  seen.filter (fun d => decide (d.volume = v) && decide (d.reporter = r))

/-- Modelled from the spec: shared resolution logic of `ShortCase` and
`Supra` mentions over a candidate pool — an empty pool drops the mention; a
single candidate resolves directly; with several candidates the antecedent
guess must match exactly one candidate's surname tokens, otherwise the
mention is dropped. A dropped mention changes nothing but the
previous-outcome marker consulted by a following `Id`. -/
def resolveShortSupra (pool : List Document) (guess : String) (i : Nat)
    (st : RState) : RState :=
  match pool with
  | [] => { st with prevOutcome := none }
  | [d] =>
    { st with
      resolutions := addTo (.opinion d.id) i st.resolutions
      prevOutcome := some (.opinion d.id) }
  | d1 :: d2 :: t =>
    match (d1 :: d2 :: t).filter (fun d => matchGuess guess d) with
    | [d] =>
      { st with
        resolutions := addTo (.opinion d.id) i st.resolutions
        prevOutcome := some (.opinion d.id) }
    | _ => { st with prevOutcome := none }

/-- Modelled from the spec: the per-mention transition of the resolver.
`FullCase` looks the corpus up by exact volume/reporter/page — a unique hit
resolves and is recorded as seen, anything else resolves to `NO_MATCH`.
`ShortCase`/`Supra` go through `resolveShortSupra` over their candidate
pools. `Id` inherits the immediately preceding mention's outcome when that
outcome was determinate and is dropped otherwise. `Nonopinion` is never
bucketed. `Law`/`Journal` resolve to `NO_MATCH`. -/
def resolveOne (corpus : List Document) (st : RState) (i : Nat) :
    Citation → RState
  | .fullCase v r p =>
    match corpus.filter
        (fun d =>
          decide (d.volume = v) && decide (d.reporter = r) &&
            decide (d.page = p)) with
    | [d] =>
      { resolutions := addTo (.opinion d.id) i st.resolutions
        seen := st.seen ++ [d]
        prevOutcome := some (.opinion d.id) }
    | _ =>
      { resolutions := addTo .noMatch i st.resolutions
        seen := st.seen
        prevOutcome := some .noMatch }
  | .shortCase v r g => resolveShortSupra (shortPool st.seen v r) g i st
  | .supra g => resolveShortSupra st.seen g i st
  | .idCitation =>
    match st.prevOutcome with
    | some r =>
      { resolutions := addTo r i st.resolutions
        seen := st.seen
        prevOutcome := some r }
    | none => { st with prevOutcome := none }
  | .nonopinion => { st with prevOutcome := none }
  | .law =>
    { resolutions := addTo .noMatch i st.resolutions
      seen := st.seen
      prevOutcome := some .noMatch }
  | .journal =>
    { resolutions := addTo .noMatch i st.resolutions
      seen := st.seen
      prevOutcome := some .noMatch }

/-- Run the resolver over a mention sequence, numbering mentions from `i`. -/
def runFrom (corpus : List Document) : Nat → RState → List Citation → RState
  | _, st, [] => st
  | i, st, c :: rest => runFrom corpus (i + 1) (resolveOne corpus st i c) rest

/-- The initial resolver state. -/
def initState : RState :=
  { resolutions := [], seen := [], prevOutcome := none }

/-- Modelled from the spec: `do_resolve_citations` of the missing
`match_citations.py` — sequentially resolve an ordered mention sequence
against a corpus, producing the resolution map (buckets of mention indices,
keyed by resolution target). -/
def do_resolve_citations (corpus : List Document) (citations : List Citation) :
    List (Resource × List Nat) :=
  (runFrom corpus 0 initState citations).resolutions

/-- Opinion 7 of the test fixtures: `Foo v. Bar`, cited `1 U.S. 1`. -/
def doc7 : Document :=
  { id := 7, volume := "1", reporter := "U.S.", page := "1",
    caseName := "Foo v. Bar" }

/-- Opinion 8 of the test fixtures: `Qwerty v. Uiop`, cited `2 F.3d 2`. -/
def doc8 : Document :=
  { id := 8, volume := "2", reporter := "F.3d", page := "2",
    caseName := "Qwerty v. Uiop" }

/-- Opinion 9 of the test fixtures: `Lorem v. Ipsum`, cited `1 U.S. 50`. -/
def doc9 : Document :=
  { id := 9, volume := "1", reporter := "U.S.", page := "50",
    caseName := "Lorem v. Ipsum" }

/-- Opinion 11 of the test fixtures: `Abcdef v. Ipsum`, cited `1 U.S. 999`. -/
def doc11 : Document :=
  { id := 11, volume := "1", reporter := "U.S.", page := "999",
    caseName := "Abcdef v. Ipsum" }

/-- The corpus fixture of the repository's `test_citation_resolution`
(opinions 7, 8, 9 and 11 of `opinions_matching_citations.json`). -/
def corpusFixture : List Document :=
  [doc7, doc8, doc9, doc11]

/-- The resolver state reached after resolving `[full7, full9]`: both full
citations bucketed and recorded as seen. -/
def stateFixture : RState :=
  { resolutions := [(.opinion 7, [0]), (.opinion 9, [1])]
    seen := [doc7, doc9]
    prevOutcome := some (.opinion 9) }

/-- The unmatchable full citation `1 U.S. 99` of the test fixture. -/
def fullNA : Citation := .fullCase "1" "U.S." "99"

/-- The full citation `1 U.S. 1` resolving to opinion 7. -/
def full7 : Citation := .fullCase "1" "U.S." "1"

/-- The full citation `1 U.S. 50` resolving to opinion 9. -/
def full9 : Citation := .fullCase "1" "U.S." "50"

/-- The full citation `1 U.S. 999` resolving to opinion 11. -/
def full11 : Citation := .fullCase "1" "U.S." "999"

/-- An edge endpoint entry stored either as a scalar (`true`) or as a
one-element list (`false`), to quantify over the storage shapes the
component traversal must tolerate. -/
def edgeEntry (scalar : Bool) (n : String) : Entry :=
  if scalar then .single n else .many [n]

/-! ## Helper lemmas -/

theorem coerce_edgeEntry (s : Bool) (n : String) :
    coerceEntry (edgeEntry s n) = [n] := by
  cases s <;> rfl

theorem dfs_cons (g : List (String × Entry)) (fuel : Nat) (n : String)
    (stack visited : List String) :
    dfs g (fuel + 1) (n :: stack) visited =
      if n ∈ visited then dfs g fuel stack visited
      else dfs g fuel (neighborsOf g n ++ stack) (visited ++ [n]) := rfl

theorem dfs_nil (g : List (String × Entry)) (fuel : Nat)
    (visited : List String) : dfs g fuel [] visited = visited := by
  cases fuel <;> rfl

/-- C6: for every adjacency mapping storing the path `A–B`, `B–C` (each
single-neighbor entry stored either as a scalar identifier or as a list),
`get_graph_component` computes the same connected component — exactly
`{A, B, C}` — no matter which of the three members asks. -/
theorem get_graph_component_path_symmetric (a b c : String) (h1 : a ≠ b)
    (h2 : a ≠ c) (h3 : b ≠ c) (sa sc : Bool) :
    (get_graph_component a
        [(a, edgeEntry sa b), (b, .many [a, c]), (c, edgeEntry sc b)]
        []).toFinset = {a, b, c} ∧
    (get_graph_component b
        [(a, edgeEntry sa b), (b, .many [a, c]), (c, edgeEntry sc b)]
        []).toFinset = {a, b, c} ∧
    (get_graph_component c
        [(a, edgeEntry sa b), (b, .many [a, c]), (c, edgeEntry sc b)]
        []).toFinset = {a, b, c} := by
  set G := [(a, edgeEntry sa b), (b, Entry.many [a, c]), (c, edgeEntry sc b)]
    with hG
  have na : neighborsOf G a = [b] := by
    simp [hG, neighborsOf, coerce_edgeEntry]
  have nb : neighborsOf G b = [a, c] := by
    simp [hG, neighborsOf, coerceEntry, h1]
  have nc : neighborsOf G c = [b] := by
    simp [hG, neighborsOf, coerce_edgeEntry, h2, h3]
  have hfuel : graphFuel G = 9 := by
    rw [hG]; cases sa <;> cases sc <;> rfl
  have hcompa : get_graph_component a G [] = [a, b, c] := by
    have s1 : dfs G 9 [a] [] = dfs G 8 [b] [a] := by
      rw [show (9 : Nat) = 8 + 1 from rfl, dfs_cons, if_neg (List.not_mem_nil a), na]; rfl
    have s2 : dfs G 8 [b] [a] = dfs G 7 [a, c] [a, b] := by
      rw [show (8 : Nat) = 7 + 1 from rfl, dfs_cons, if_neg (by simp [Ne.symm h1]), nb]; rfl
    have s3 : dfs G 7 [a, c] [a, b] = dfs G 6 [c] [a, b] := by
      rw [show (7 : Nat) = 6 + 1 from rfl, dfs_cons, if_pos (by simp)]
    have s4 : dfs G 6 [c] [a, b] = dfs G 5 [b] [a, b, c] := by
      rw [show (6 : Nat) = 5 + 1 from rfl, dfs_cons,
        if_neg (by simp [Ne.symm h2, Ne.symm h3]), nc]; rfl
    have s5 : dfs G 5 [b] [a, b, c] = dfs G 4 [] [a, b, c] := by
      rw [show (5 : Nat) = 4 + 1 from rfl, dfs_cons, if_pos (by simp)]
    calc get_graph_component a G [] = dfs G 9 [a] [] := by
          rw [get_graph_component, hfuel]
      _ = [a, b, c] := by rw [s1, s2, s3, s4, s5, dfs_nil]
  have hcompb : get_graph_component b G [] = [b, a, c] := by
    have s1 : dfs G 9 [b] [] = dfs G 8 [a, c] [b] := by
      rw [show (9 : Nat) = 8 + 1 from rfl, dfs_cons, if_neg (List.not_mem_nil b), nb]; rfl
    have s2 : dfs G 8 [a, c] [b] = dfs G 7 [b, c] [b, a] := by
      rw [show (8 : Nat) = 7 + 1 from rfl, dfs_cons, if_neg (by simp [h1]), na]; rfl
    have s3 : dfs G 7 [b, c] [b, a] = dfs G 6 [c] [b, a] := by
      rw [show (7 : Nat) = 6 + 1 from rfl, dfs_cons, if_pos (by simp)]
    have s4 : dfs G 6 [c] [b, a] = dfs G 5 [b] [b, a, c] := by
      rw [show (6 : Nat) = 5 + 1 from rfl, dfs_cons,
        if_neg (by simp [Ne.symm h3, Ne.symm h2]), nc]; rfl
    have s5 : dfs G 5 [b] [b, a, c] = dfs G 4 [] [b, a, c] := by
      rw [show (5 : Nat) = 4 + 1 from rfl, dfs_cons, if_pos (by simp)]
    calc get_graph_component b G [] = dfs G 9 [b] [] := by
          rw [get_graph_component, hfuel]
      _ = [b, a, c] := by rw [s1, s2, s3, s4, s5, dfs_nil]
  have hcompc : get_graph_component c G [] = [c, b, a] := by
    have s1 : dfs G 9 [c] [] = dfs G 8 [b] [c] := by
      rw [show (9 : Nat) = 8 + 1 from rfl, dfs_cons, if_neg (List.not_mem_nil c), nc]; rfl
    have s2 : dfs G 8 [b] [c] = dfs G 7 [a, c] [c, b] := by
      rw [show (8 : Nat) = 7 + 1 from rfl, dfs_cons, if_neg (by simp [h3]), nb]; rfl
    have s3 : dfs G 7 [a, c] [c, b] = dfs G 6 [b, c] [c, b, a] := by
      rw [show (7 : Nat) = 6 + 1 from rfl, dfs_cons,
        if_neg (by simp [h2, h1]), na]; rfl
    have s4 : dfs G 6 [b, c] [c, b, a] = dfs G 5 [c] [c, b, a] := by
      rw [show (6 : Nat) = 5 + 1 from rfl, dfs_cons, if_pos (by simp)]
    have s5 : dfs G 5 [c] [c, b, a] = dfs G 4 [] [c, b, a] := by
      rw [show (5 : Nat) = 4 + 1 from rfl, dfs_cons, if_pos (by simp)]
    calc get_graph_component c G [] = dfs G 9 [c] [] := by
          rw [get_graph_component, hfuel]
      _ = [c, b, a] := by rw [s1, s2, s3, s4, s5, dfs_nil]
  refine ⟨?_, ?_, ?_⟩
  · rw [hcompa]; simp
  · rw [hcompb]
    ext x
    simp
    tauto
  · rw [hcompc]
    ext x
    simp
    tauto

/-- Witness for C6 at the concrete nodes "1", "2", "3", one edge stored as a
scalar and one as a list. -/
theorem get_graph_component_path_symmetric_witness :
    (get_graph_component "2"
        [("2", edgeEntry true "1"), ("1", .many ["2", "3"]),
         ("3", edgeEntry false "1")] []).toFinset = {"2", "1", "3"} ∧
    (get_graph_component "1"
        [("2", edgeEntry true "1"), ("1", .many ["2", "3"]),
         ("3", edgeEntry false "1")] []).toFinset = {"2", "1", "3"} ∧
    (get_graph_component "3"
        [("2", edgeEntry true "1"), ("1", .many ["2", "3"]),
         ("3", edgeEntry false "1")] []).toFinset = {"2", "1", "3"} :=
  get_graph_component_path_symmetric "2" "1" "3" (by decide) (by decide)
    (by decide) true false

/-- The exact `test_get_graph_component` fixture of the repository's test
suite, including the disconnected pair "4"–"5" and the scalar entry for "2":
all three members of the path report the same component. -/
example :
    (get_graph_component "1"
          [("1", .many ["2", "3"]), ("2", .single "1"), ("3", .many ["1"]),
           ("4", .many ["5"]), ("5", .many ["4"])] []).toFinset
        = ({"1", "2", "3"} : Finset String) ∧
    (get_graph_component "2"
          [("1", .many ["2", "3"]), ("2", .single "1"), ("3", .many ["1"]),
           ("4", .many ["5"]), ("5", .many ["4"])] []).toFinset
        = ({"1", "2", "3"} : Finset String) ∧
    (get_graph_component "3"
          [("1", .many ["2", "3"]), ("2", .single "1"), ("3", .many ["1"]),
           ("4", .many ["5"]), ("5", .many ["4"])] []).toFinset
        = ({"1", "2", "3"} : Finset String) := by
  decide

theorem make_edge_list_cons {α : Type} (x : α) (l : List α) :
    make_edge_list (x :: l) =
      (match l with
        | [] => []
        | y :: _ => (x, y) :: make_edge_list l) := by
  cases l with
  | nil => rfl
  | cons y l' =>
    show make_edge_list (x :: y :: l') = (x, y) :: make_edge_list (y :: l')
    rw [make_edge_list, make_edge_list, List.length_cons,
      List.range_succ_eq_map, List.filterMap_cons, List.filterMap_map]
    rfl

theorem make_edge_list_eq_zip {α : Type} (xs : List α) :
    make_edge_list xs = xs.zip xs.tail := by
  induction xs with
  | nil => rfl
  | cons x l ih =>
    rw [make_edge_list_cons]
    cases l with
    | nil => rfl
    | cons y l' => simpa using ih

/-- C9: for every ordered list of at least two node identifiers,
`make_edge_list` returns exactly the list of consecutive pairs; concretely,
`[1,2,3,4]` maps to `[(1,2),(2,3),(3,4)]` and `[1,2]` to `[(1,2)]`. -/
theorem make_edge_list_consecutive_pairs :
    (∀ (xs : List Int), 2 ≤ xs.length → make_edge_list xs = xs.zip xs.tail) ∧
    make_edge_list [(1 : Int), 2, 3, 4] = [(1, 2), (2, 3), (3, 4)] ∧
    make_edge_list [(1 : Int), 2] = [(1, 2)] := by
  refine ⟨fun xs _ => make_edge_list_eq_zip xs, ?_, ?_⟩ <;> rfl

/-- Witness for C9, applying the universally quantified part at the test
input `[1,2,3,4]` and discharging its length hypothesis there. -/
theorem make_edge_list_consecutive_pairs_witness :
    make_edge_list [(1 : Int), 2, 3, 4] =
      ([(1 : Int), 2, 3, 4]).zip ([(1 : Int), 2, 3, 4]).tail :=
  make_edge_list_consecutive_pairs.1 [(1 : Int), 2, 3, 4] (by decide)

/-- C8: `parenthetical_score` is total for every well-formed text input, and
returns a strictly positive score even when the described document's
citation count is zero. -/
theorem parenthetical_score_pos_of_zero_citations (text : String) :
    0 < parenthetical_score text { citation_count := 0 } := by
  rw [parenthetical_score]
  positivity

/-- Witness for C8 at the test suite's smoke-test input. -/
theorem parenthetical_score_pos_of_zero_citations_witness :
    0 < parenthetical_score "some parenthetical, it's not important what"
        { citation_count := 0 } :=
  parenthetical_score_pos_of_zero_citations
    "some parenthetical, it's not important what"

theorem map_fix {α : Type} (f : α → α) (l : List α) (h : ∀ x ∈ l, f x = x) :
    l.map f = l := by
  induction l with
  | nil => rfl
  | cons x l ih =>
    rw [List.map_cons, h x (List.mem_cons_self x l),
      ih (fun y hy => h y (List.mem_cons_of_mem x hy))]

theorem splitWSAux_append_word (t : List Char) :
    ∀ (r acc : List Char), (∀ c ∈ t, isWS c = false) →
      splitWSAux (t ++ r) acc = splitWSAux r (t.reverse ++ acc) := by
  induction t with
  | nil => intro r acc _; simp
  | cons c t ih =>
    intro r acc h
    have hc : isWS c = false := h c (List.mem_cons_self c t)
    show splitWSAux (c :: (t ++ r)) acc = _
    rw [splitWSAux, hc]
    simp only [Bool.false_eq_true, if_false]
    rw [ih r (c :: acc) (fun y hy => h y (List.mem_cons_of_mem c hy))]
    simp [List.append_assoc]

theorem splitWSAux_sep (r : List Char) (acc : List Char) (h : acc ≠ []) :
    splitWSAux (' ' :: r) acc = acc.reverse :: splitWSAux r [] := by
  cases acc with
  | nil => exact absurd rfl h
  | cons a as => simp [splitWSAux, isWS]

theorem splitWS_joinSp (ts : List (List Char))
    (h : ∀ t ∈ ts, t ≠ [] ∧ ∀ c ∈ t, isWS c = false) :
    splitWS (joinSp ts) = ts := by
  induction ts with
  | nil => rfl
  | cons t ts ih =>
    obtain ⟨hne, hws⟩ := h t (List.mem_cons_self t ts)
    cases ts with
    | nil =>
      show splitWS (joinSp [t]) = [t]
      have hj : joinSp [t] = t := rfl
      rw [hj, splitWS]
      have hseg : splitWSAux (t ++ []) [] = splitWSAux [] (t.reverse ++ []) :=
        splitWSAux_append_word t [] [] hws
      simp only [List.append_nil] at hseg
      rw [hseg, splitWSAux]
      simp [hne]
    | cons t2 ts2 =>
      have hrest : ∀ u ∈ t2 :: ts2, u ≠ [] ∧ ∀ c ∈ u, isWS c = false :=
        fun u hu => h u (List.mem_cons_of_mem t hu)
      have hj : joinSp (t :: t2 :: ts2) = t ++ ' ' :: joinSp (t2 :: ts2) := rfl
      rw [splitWS, hj, splitWSAux_append_word t _ [] hws,
        splitWSAux_sep _ _ (by simp [hne])]
      have hih := ih hrest
      rw [splitWS] at hih
      rw [hih]
      simp

theorem goodChar_not_isWS (c : Char) (h : goodChar c = true) : isWS c = false := by
  rw [goodChar] at h
  simp only [Bool.or_eq_true, decide_eq_true_eq] at h
  have h1 : c ≠ ' ' := by rintro rfl; revert h; decide
  have h2 : c ≠ '\n' := by rintro rfl; revert h; decide
  have h3 : c ≠ '\t' := by rintro rfl; revert h; decide
  have h4 : c ≠ '\r' := by rintro rfl; revert h; decide
  simp [isWS, h1, h2, h3, h4]

theorem toLowerChar_fixed (c : Char) (h : goodChar c = true) :
    toLowerChar c = c := by
  rw [goodChar] at h
  simp only [Bool.or_eq_true, decide_eq_true_eq] at h
  rw [toLowerChar, if_neg]
  rintro ⟨hA, hZ⟩
  rcases h with ⟨h1, _⟩ | ⟨_, h2⟩
  · exact absurd (le_trans h1 hZ) (by decide)
  · exact absurd (le_trans hA h2) (by decide)

theorem clean_chars_good (w : List Char) (c : Char) (hc : c ∈ clean w) :
    goodChar c = true := by
  rw [clean] at hc
  exact (List.mem_filter.mp hc).2

theorem clean_fixed (t : List Char) (h : ∀ c ∈ t, goodChar c = true) :
    clean t = t := by
  rw [clean, map_fix toLowerChar t (fun c hc => toLowerChar_fixed c (h c hc))]
  exact List.filter_eq_self.mpr h

theorem hasVowel_ne_nil (r : List Char) (h : hasVowel r = true) : r ≠ [] := by
  rintro rfl
  simp [hasVowel] at h

theorem stemStep1_mem (w : List Char) (c : Char) (h : c ∈ stemStep1 w) :
    c ∈ w := by
  rw [stemStep1] at h
  split at h
  · exact h
  · split at h
    · exact (List.dropLast_sublist _).subset h
    · exact h

theorem stemStep2_mem (w : List Char) (c : Char) (h : c ∈ stemStep2 w) :
    c ∈ w ∨ c = 'e' := by
  rw [stemStep2] at h
  split at h
  · exact Or.inl ((List.take_sublist _ _).subset h)
  · split at h
    · simp only [] at h
      split at h
      · rcases List.mem_append.mp h with h' | h'
        · exact Or.inl ((List.take_sublist _ _).subset h')
        · right; simpa using h'
      · exact Or.inl ((List.take_sublist _ _).subset h)
    · exact Or.inl h

theorem stemStep3_mem (w : List Char) (c : Char) (h : c ∈ stemStep3 w) :
    c ∈ w := by
  rw [stemStep3] at h
  split at h
  · exact (List.take_sublist _ _).subset h
  · exact h

theorem stemChars_mem (w : List Char) (c : Char) (h : c ∈ stemChars w) :
    c ∈ w ∨ c = 'e' := by
  rw [stemChars] at h
  split at h
  · exact Or.inl h
  · have h2 := stemStep3_mem _ _ h
    rcases stemStep2_mem _ _ h2 with h3 | he
    · exact Or.inl (stemStep1_mem _ _ h3)
    · exact Or.inr he

theorem stemStep1_ne (w : List Char) (hw : 3 ≤ w.length) : stemStep1 w ≠ [] := by
  rw [stemStep1]
  split
  · intro h; rw [h] at hw; simp at hw
  · split
    · intro h
      have hl := List.length_dropLast w
      rw [h] at hl
      simp at hl
      omega
    · intro h; rw [h] at hw; simp at hw

theorem stemStep2_ne (w : List Char) (hw : w ≠ []) : stemStep2 w ≠ [] := by
  rw [stemStep2]
  split
  · next hcond =>
    simp only [Bool.and_eq_true] at hcond
    exact hasVowel_ne_nil _ hcond.2
  · split
    · next hcond =>
      simp only [Bool.and_eq_true] at hcond
      simp only []
      split
      · simp
      · exact hasVowel_ne_nil _ hcond.2
    · exact hw

theorem stemStep3_ne (w : List Char) (hw : w ≠ []) : stemStep3 w ≠ [] := by
  rw [stemStep3]
  split
  · next hcond =>
    simp only [Bool.and_eq_true] at hcond
    exact hasVowel_ne_nil _ hcond.2
  · exact hw

theorem stemChars_ne (w : List Char) (hw : w ≠ []) : stemChars w ≠ [] := by
  rw [stemChars]
  split
  · exact hw
  · next hlen =>
    refine stemStep3_ne _ (stemStep2_ne _ (stemStep1_ne _ ?_))
    omega

theorem tokenize_token_props (cs : List Char) (t : List Char)
    (ht : t ∈ tokenize cs) : t ≠ [] ∧ ∀ c ∈ t, goodChar c = true := by
  rw [tokenize] at ht
  rcases List.mem_map.mp ht with ⟨u, hu, rfl⟩
  have hu2 : u ∈ ((splitWS cs).map clean).filter (fun t => !t.isEmpty) :=
    (List.mem_filter.mp hu).1
  have hune : u ≠ [] := by
    have := (List.mem_filter.mp hu2).2
    simpa using this
  have hu3 : u ∈ (splitWS cs).map clean := (List.mem_filter.mp hu2).1
  rcases List.mem_map.mp hu3 with ⟨w, _, rfl⟩
  refine ⟨stemChars_ne _ hune, fun c hc => ?_⟩
  rcases stemChars_mem _ _ hc with h | rfl
  · exact clean_chars_good _ _ h
  · decide

/-- C7 (amended): retokenizing the rejoined output of
`get_parenthetical_tokens` yields the output's tokens with stop-word tokens
removed and each remaining token re-stemmed — so the retokenization equals
the original output exactly when every output token is a stop-word-free fixed
point of the stemmer — and empty input produces an empty token sequence. -/
theorem get_parenthetical_tokens_retokenize :
    (∀ s : String,
      get_parenthetical_tokens (rejoinTokens (get_parenthetical_tokens s)) =
        ((tokenize s.toList).filter (fun t => !(STOP_WORDS.contains t))).map
          (fun t => String.mk (stemChars t))) ∧
    get_parenthetical_tokens "" = [] := by
  constructor
  · intro s
    have hprops : ∀ t ∈ tokenize s.toList,
        t ≠ [] ∧ ∀ c ∈ t, goodChar c = true :=
      fun t ht => tokenize_token_props _ t ht
    have h1 : (rejoinTokens (get_parenthetical_tokens s)).toList =
        joinSp (tokenize s.toList) := by
      rw [rejoinTokens, get_parenthetical_tokens]
      show joinSp (((tokenize s.toList).map (fun t => String.mk t)).map
        String.toList) = _
      rw [List.map_map]
      congr 1
      exact map_fix _ _ (fun x _ => rfl)
    rw [get_parenthetical_tokens, h1, tokenize]
    have hsplit : splitWS (joinSp (tokenize s.toList)) = tokenize s.toList :=
      splitWS_joinSp _ (fun t ht =>
        ⟨(hprops t ht).1,
         fun c hc => goodChar_not_isWS c ((hprops t ht).2 c hc)⟩)
    rw [hsplit]
    have hclean : (tokenize s.toList).map clean = tokenize s.toList :=
      map_fix _ _ (fun t ht => clean_fixed t (hprops t ht).2)
    rw [hclean]
    have hfilter1 : (tokenize s.toList).filter (fun t => !t.isEmpty) =
        tokenize s.toList :=
      List.filter_eq_self.mpr (fun t ht => by simpa using (hprops t ht).1)
    rw [hfilter1, List.map_map]
    rfl
  · rfl

/-- Counterexample to C7 as stated: on the input `"focused"` the tokenizer
returns `["focus"]`, but rejoining and retokenizing returns `["focu"]` (the
stemmer strips the trailing `s` of the already-stemmed token), so the
tokenizer is not idempotent on its own output. -/
theorem get_parenthetical_tokens_not_idempotent :
    get_parenthetical_tokens "focused" = ["focus"] ∧
    get_parenthetical_tokens
        (rejoinTokens (get_parenthetical_tokens "focused")) = ["focu"] ∧
    ¬(get_parenthetical_tokens
          (rejoinTokens (get_parenthetical_tokens "focused")) =
        get_parenthetical_tokens "focused") := by
  refine ⟨by decide, by decide, by decide⟩

/-- The tokenizer reproduces the repository's `test_get_parenthetical_tokens`
vectors. -/
example :
    get_parenthetical_tokens
        "Concluding that a TDCA claim failed because the plaintiffs always knew the answers to those questions" =
      ["tdca", "claim", "fail", "plaintiff", "alway", "knew", "answer",
       "question"] ∧
    get_parenthetical_tokens
        "Holding that in ruling upon an RCFC 12(b)(6) motion, the Court must accept as true the undisputed factual allegations in the complaint" =
      ["rule", "upon", "rcfc", "12b6", "motion", "court", "must", "accept",
       "true", "undisput", "factual", "alleg", "complaint"] ∧
    get_parenthetical_tokens "" = [] := by
  decide

theorem argmaxBy_spec {α : Type} (f : α → Nat) (s : α → Int) :
    ∀ (l : List α) (c : α),
      argmaxBy f s c l ∈ c :: l ∧
      ∀ q ∈ c :: l, f q ≤ f (argmaxBy f s c l) ∧
        (f q = f (argmaxBy f s c l) → s q ≤ s (argmaxBy f s c l)) := by
  intro l
  induction l with
  | nil =>
    intro c
    refine ⟨List.mem_cons_self c [], ?_⟩
    intro q hq
    rcases List.mem_cons.mp hq with rfl | h
    · exact ⟨le_refl _, fun _ => le_refl _⟩
    · simp at h
  | cons x l ih =>
    intro c
    by_cases hb : f x > f c ∨ (f x = f c ∧ s x > s c)
    · have hstep : argmaxBy f s c (x :: l) = argmaxBy f s x l := by
        show argmaxBy f s (if f x > f c ∨ (f x = f c ∧ s x > s c) then x else c) l =
          argmaxBy f s x l
        rw [if_pos hb]
      obtain ⟨hmem, hall⟩ := ih x
      rw [hstep]
      constructor
      · exact List.mem_cons_of_mem _ hmem
      · intro q hq
        rcases List.mem_cons.mp hq with rfl | hq'
        · have hx := hall x (List.mem_cons_self x l)
          rcases hb with hgt | ⟨heq, hs⟩
          · refine ⟨by omega, fun htie => ?_⟩
            exfalso; omega
          · refine ⟨by omega, fun htie => ?_⟩
            have := hx.2 (by omega)
            omega
        · exact hall q hq'
    · have hstep : argmaxBy f s c (x :: l) = argmaxBy f s c l := by
        show argmaxBy f s (if f x > f c ∨ (f x = f c ∧ s x > s c) then x else c) l =
          argmaxBy f s c l
        rw [if_neg hb]
      obtain ⟨hmem, hall⟩ := ih c
      push_neg at hb
      rw [hstep]
      constructor
      · rcases List.mem_cons.mp hmem with h | h
        · rw [h]; exact List.mem_cons_self _ _
        · exact List.mem_cons_of_mem _ (List.mem_cons_of_mem _ h)
      · intro q hq
        rcases List.mem_cons.mp hq with rfl | hq'
        · exact hall q (List.mem_cons_self _ _)
        · rcases List.mem_cons.mp hq' with rfl | hq''
          · have hc := hall c (List.mem_cons_self _ _)
            refine ⟨le_trans hb.1 hc.1, fun htie => ?_⟩
            have h1 : f c = f (argmaxBy f s c l) := by omega
            have h2 := hc.2 h1
            have h3 := hb.2 (by omega)
            omega
          · exact hall q (List.mem_cons_of_mem _ hq'')

theorem dfs_visited_subset (g : List (String × Entry)) :
    ∀ (fuel : Nat) (stack visited : List String),
      visited ⊆ dfs g fuel stack visited := by
  intro fuel
  induction fuel with
  | zero => intro stack visited; exact fun x h => h
  | succ n ih =>
    intro stack visited
    cases stack with
    | nil => rw [dfs_nil]; exact fun x h => h
    | cons m rest =>
      rw [dfs_cons]
      split
      · exact ih rest visited
      · exact (List.subset_append_left _ _).trans (ih _ _)

theorem mem_get_graph_component_start (n : String) (g : List (String × Entry)) :
    n ∈ get_graph_component n g [] := by
  rw [get_graph_component]
  rw [show graphFuel g =
    (g.length + (g.map (fun e => entrySize e.2)).sum + 1) + 1 from rfl]
  rw [dfs_cons, if_neg (List.not_mem_nil n)]
  exact dfs_visited_subset g _ _ _ (by simp)

/-- C1 (amended): for every nonempty list of parentheticals and similarity
graph, `get_representative_parenthetical` returns a passed-in member lying in
the induced subgraph's connected component of the first passed-in member, and
among the passed-in members of that component it has maximal degree in the
subgraph induced on exactly the passed-in members, with ties broken by
descriptiveness score (no member of the component beats it on degree, nor on
score at equal degree). -/
theorem get_representative_parenthetical_spec (g : List (String × Entry))
    (p : Parenthetical) (rest : List Parenthetical) :
    ∃ rep, get_representative_parenthetical (p :: rest) g = some rep ∧
      rep ∈ p :: rest ∧
      rep.key ∈ get_graph_component p.key
        (inducedGraph g ((p :: rest).map (fun q => q.key))) [] ∧
      ∀ q ∈ p :: rest,
        q.key ∈ get_graph_component p.key
          (inducedGraph g ((p :: rest).map (fun q => q.key))) [] →
        inducedDegree g ((p :: rest).map (fun q => q.key)) q ≤
          inducedDegree g ((p :: rest).map (fun q => q.key)) rep ∧
        (inducedDegree g ((p :: rest).map (fun q => q.key)) q =
            inducedDegree g ((p :: rest).map (fun q => q.key)) rep →
          q.score ≤ rep.score) := by
  have hpfilter : p ∈ (p :: rest).filter (fun q =>
      decide (q.key ∈ get_graph_component p.key
        (inducedGraph g ((p :: rest).map (fun q => q.key))) [])) := by
    apply List.mem_filter.mpr
    refine ⟨List.mem_cons_self _ _, ?_⟩
    simp only [decide_eq_true_eq]
    exact mem_get_graph_component_start _ _
  cases hfil : (p :: rest).filter (fun q =>
      decide (q.key ∈ get_graph_component p.key
        (inducedGraph g ((p :: rest).map (fun q => q.key))) [])) with
  | nil => rw [hfil] at hpfilter; simp at hpfilter
  | cons c cs =>
    have hdef : get_representative_parenthetical (p :: rest) g =
        some (argmaxBy
          (inducedDegree g ((p :: rest).map (fun q => q.key)))
          (fun q => q.score) c cs) := by
      simp only [get_representative_parenthetical]
      rw [hfil]
    obtain ⟨hmem, hall⟩ := argmaxBy_spec
      (inducedDegree g ((p :: rest).map (fun q => q.key)))
      (fun q => q.score) cs c
    have hmem' := hmem
    rw [← hfil] at hmem'
    obtain ⟨hrepmem, hrepkey⟩ := List.mem_filter.mp hmem'
    refine ⟨_, hdef, hrepmem, by simpa using hrepkey, ?_⟩
    intro q hq hqkey
    have hqfil : q ∈ (p :: rest).filter (fun q =>
        decide (q.key ∈ get_graph_component p.key
          (inducedGraph g ((p :: rest).map (fun q => q.key))) [])) :=
      List.mem_filter.mpr ⟨hq, by simpa using hqkey⟩
    rw [hfil] at hqfil
    exact hall q hqfil

/-- Counterexample to C1 as stated: on the repository's own
`test_get_representative_parenthetical` input `parentheticals[0:3]` with its
similarity graph, the returned member (parenthetical "0", as the test
expects) has induced degree 0, strictly below the induced degree 1 of the
also-passed-in parenthetical "1", so the returned member is not the one with
the highest degree in the subgraph induced on the passed-in members. -/
theorem get_representative_parenthetical_not_globally_max :
    get_representative_parenthetical (parsFixture.take 3) simgraphFixture =
      some (parFixture "0") ∧
    parFixture "1" ∈ parsFixture.take 3 ∧
    inducedDegree simgraphFixture ((parsFixture.take 3).map (fun q => q.key))
        (parFixture "0") <
      inducedDegree simgraphFixture ((parsFixture.take 3).map (fun q => q.key))
        (parFixture "1") := by
  decide

/-- The representative-selection model reproduces all four vectors of the
repository's `test_get_representative_parenthetical`. -/
example :
    get_representative_parenthetical (parsFixture.take 3) simgraphFixture =
      some (parFixture "0") ∧
    get_representative_parenthetical (parsFixture.take 6) simgraphFixture =
      some (parFixture "1") ∧
    get_representative_parenthetical (parsFixture.take 1) simgraphFixture =
      some (parFixture "0") ∧
    get_representative_parenthetical (parsFixture.drop 7) simgraphFixture =
      some (parFixture "7") := by
  decide

/-- Witness for the amended C1 theorem at the repository's first test vector. -/
theorem get_representative_parenthetical_spec_witness :
    ∃ rep, get_representative_parenthetical
        (parFixture "0" :: [parFixture "1", parFixture "2"]) simgraphFixture =
        some rep ∧
      rep ∈ parFixture "0" :: [parFixture "1", parFixture "2"] ∧
      rep.key ∈ get_graph_component (parFixture "0").key
        (inducedGraph simgraphFixture
          ((parFixture "0" :: [parFixture "1", parFixture "2"]).map
            (fun q => q.key))) [] ∧
      ∀ q ∈ parFixture "0" :: [parFixture "1", parFixture "2"],
        q.key ∈ get_graph_component (parFixture "0").key
          (inducedGraph simgraphFixture
            ((parFixture "0" :: [parFixture "1", parFixture "2"]).map
              (fun q => q.key))) [] →
        inducedDegree simgraphFixture
            ((parFixture "0" :: [parFixture "1", parFixture "2"]).map
              (fun q => q.key)) q ≤
          inducedDegree simgraphFixture
            ((parFixture "0" :: [parFixture "1", parFixture "2"]).map
              (fun q => q.key)) rep ∧
        (inducedDegree simgraphFixture
              ((parFixture "0" :: [parFixture "1", parFixture "2"]).map
                (fun q => q.key)) q =
            inducedDegree simgraphFixture
              ((parFixture "0" :: [parFixture "1", parFixture "2"]).map
                (fun q => q.key)) rep →
          q.score ≤ rep.score) :=
  get_representative_parenthetical_spec simgraphFixture (parFixture "0")
    [parFixture "1", parFixture "2"]

/-- Witness for the amended C7 theorem at the counterexample input. -/
theorem get_parenthetical_tokens_retokenize_witness :
    get_parenthetical_tokens
        (rejoinTokens (get_parenthetical_tokens "focused")) =
      ((tokenize ("focused" : String).toList).filter
          (fun t => !(STOP_WORDS.contains t))).map
        (fun t => String.mk (stemChars t)) :=
  get_parenthetical_tokens_retokenize.1 "focused"

theorem countIdx_nil (j : Nat) : countIdx [] j = 0 := rfl

theorem countIdx_cons (r : Resource) (l : List Nat)
    (m : List (Resource × List Nat)) (j : Nat) :
    countIdx ((r, l) :: m) j = l.count j + countIdx m j := by
  simp [countIdx]

theorem countIdx_addTo (r : Resource) (i : Nat) (m : List (Resource × List Nat))
    (j : Nat) :
    countIdx (addTo r i m) j = countIdx m j + (if i = j then 1 else 0) := by
  induction m with
  | nil =>
    by_cases h : i = j <;>
      simp [addTo, countIdx, List.count_cons, h]
  | cons hd tl ih =>
    obtain ⟨r', l⟩ := hd
    rw [addTo]
    split
    · by_cases h : i = j
      all_goals simp [countIdx_cons, List.count_append, List.count_cons, h]
      all_goals omega
    · rw [countIdx_cons, countIdx_cons, ih]
      omega

theorem bucketOf_none_of_countIdx_zero (m : List (Resource × List Nat)) (j : Nat)
    (h : countIdx m j = 0) : bucketOf m j = none := by
  induction m with
  | nil => rfl
  | cons hd tl ih =>
    obtain ⟨r', l⟩ := hd
    rw [countIdx_cons] at h
    rw [bucketOf, if_neg, ih (by omega)]
    intro hmem
    have := List.count_pos_iff.mpr hmem
    omega

theorem bucketOf_addTo_ne (r : Resource) (i j : Nat)
    (m : List (Resource × List Nat)) (h : i ≠ j) :
    bucketOf (addTo r i m) j = bucketOf m j := by
  induction m with
  | nil => simp [addTo, bucketOf, Ne.symm h]
  | cons hd tl ih =>
    obtain ⟨r', l⟩ := hd
    rw [addTo]
    split
    · rw [bucketOf, bucketOf]
      by_cases hjl : j ∈ l
      · rw [if_pos (List.mem_append_left _ hjl), if_pos hjl]
      · rw [if_neg hjl, if_neg]
        intro hmem
        rcases List.mem_append.mp hmem with h' | h'
        · exact hjl h'
        · simp at h'
          exact h h'.symm
    · rw [bucketOf, bucketOf, ih]

theorem bucketOf_addTo_self (r : Resource) (i : Nat)
    (m : List (Resource × List Nat)) (h : countIdx m i = 0) :
    bucketOf (addTo r i m) i = some r := by
  induction m with
  | nil => simp [addTo, bucketOf]
  | cons hd tl ih =>
    obtain ⟨r', l⟩ := hd
    rw [countIdx_cons] at h
    rw [addTo]
    split
    · next heq =>
      rw [bucketOf, if_pos (List.mem_append_right _ (by simp)), heq]
    · rw [bucketOf, if_neg, ih (by omega)]
      intro hmem
      have := List.count_pos_iff.mpr hmem
      omega

theorem resolveShortSupra_shape (pool : List Document) (g : String) (i : Nat)
    (st : RState) :
    ((resolveShortSupra pool g i st).resolutions = st.resolutions ∧
        (resolveShortSupra pool g i st).prevOutcome = none) ∨
      (∃ r, (resolveShortSupra pool g i st).resolutions = addTo r i st.resolutions ∧
        (resolveShortSupra pool g i st).prevOutcome = some r) := by
  rcases pool with _ | ⟨d1, _ | ⟨d2, t⟩⟩
  · exact Or.inl ⟨rfl, rfl⟩
  · exact Or.inr ⟨_, rfl, rfl⟩
  · simp only [resolveShortSupra]
    cases hm : (d1 :: d2 :: t).filter (fun d => matchGuess g d) with
    | nil => exact Or.inl ⟨rfl, rfl⟩
    | cons d ds =>
      cases ds with
      | nil => exact Or.inr ⟨_, rfl, rfl⟩
      | cons d' ds' => exact Or.inl ⟨rfl, rfl⟩

theorem resolveShortSupra_seen (pool : List Document) (g : String) (i : Nat)
    (st : RState) : (resolveShortSupra pool g i st).seen = st.seen := by
  rcases pool with _ | ⟨d1, _ | ⟨d2, t⟩⟩
  · rfl
  · rfl
  · simp only [resolveShortSupra]
    cases hm : (d1 :: d2 :: t).filter (fun d => matchGuess g d) with
    | nil => rfl
    | cons d ds =>
      cases ds with
      | nil => rfl
      | cons d' ds' => rfl

theorem resolveOne_shape (corpus : List Document) (st : RState) (i : Nat)
    (c : Citation) :
    ((resolveOne corpus st i c).resolutions = st.resolutions ∧
        (resolveOne corpus st i c).prevOutcome = none) ∨
      (∃ r, (resolveOne corpus st i c).resolutions = addTo r i st.resolutions ∧
        (resolveOne corpus st i c).prevOutcome = some r) := by
  cases c with
  | fullCase v r p =>
    simp only [resolveOne]
    cases hm : corpus.filter
        (fun d =>
          decide (d.volume = v) && decide (d.reporter = r) &&
            decide (d.page = p)) with
    | nil => exact Or.inr ⟨_, rfl, rfl⟩
    | cons d ds =>
      cases ds with
      | nil => exact Or.inr ⟨_, rfl, rfl⟩
      | cons d' ds' => exact Or.inr ⟨_, rfl, rfl⟩
  | shortCase v r g => exact resolveShortSupra_shape _ g i st
  | supra g => exact resolveShortSupra_shape _ g i st
  | idCitation =>
    simp only [resolveOne]
    cases hp : st.prevOutcome with
    | some r => exact Or.inr ⟨_, rfl, rfl⟩
    | none => exact Or.inl ⟨rfl, rfl⟩
  | nonopinion => exact Or.inl ⟨rfl, rfl⟩
  | law => exact Or.inr ⟨_, rfl, rfl⟩
  | journal => exact Or.inr ⟨_, rfl, rfl⟩

theorem resolveOne_countIdx_other (corpus : List Document) (st : RState)
    (i : Nat) (c : Citation) (j : Nat) (h : j ≠ i) :
    countIdx (resolveOne corpus st i c).resolutions j =
      countIdx st.resolutions j := by
  rcases resolveOne_shape corpus st i c with ⟨he, _⟩ | ⟨r, he, _⟩
  · rw [he]
  · rw [he, countIdx_addTo, if_neg (Ne.symm h)]
    omega

theorem resolveOne_countIdx_self (corpus : List Document) (st : RState)
    (i : Nat) (c : Citation) :
    countIdx (resolveOne corpus st i c).resolutions i ≤
      countIdx st.resolutions i + 1 := by
  rcases resolveOne_shape corpus st i c with ⟨he, _⟩ | ⟨r, he, _⟩
  · rw [he]; omega
  · rw [he, countIdx_addTo, if_pos rfl]

theorem resolveOne_bucketOf_other (corpus : List Document) (st : RState)
    (i : Nat) (c : Citation) (j : Nat) (h : j ≠ i) :
    bucketOf (resolveOne corpus st i c).resolutions j =
      bucketOf st.resolutions j := by
  rcases resolveOne_shape corpus st i c with ⟨he, _⟩ | ⟨r, he, _⟩
  · rw [he]
  · rw [he, bucketOf_addTo_ne _ _ _ _ (Ne.symm h)]

theorem resolveOne_prev_bucket (corpus : List Document) (st : RState) (i : Nat)
    (c : Citation) (h : countIdx st.resolutions i = 0) :
    bucketOf (resolveOne corpus st i c).resolutions i =
      (resolveOne corpus st i c).prevOutcome := by
  rcases resolveOne_shape corpus st i c with ⟨he, hp⟩ | ⟨r, he, hp⟩
  · rw [he, hp, bucketOf_none_of_countIdx_zero _ _ h]
  · rw [he, hp, bucketOf_addTo_self _ _ _ h]

theorem runFrom_countIdx (corpus : List Document) :
    ∀ (cs : List Citation) (i : Nat) (st : RState) (j : Nat),
      countIdx (runFrom corpus i st cs).resolutions j ≤
        countIdx st.resolutions j + (if i ≤ j then 1 else 0) := by
  intro cs
  induction cs with
  | nil =>
    intro i st j
    rw [runFrom]
    split <;> omega
  | cons c rest ih =>
    intro i st j
    rw [runFrom]
    by_cases hij : j = i
    · subst hij
      have h1 := ih (j + 1) (resolveOne corpus st j c) j
      have h2 := resolveOne_countIdx_self corpus st j c
      rw [if_neg (by omega)] at h1
      rw [if_pos (le_refl j)]
      omega
    · have h1 := ih (i + 1) (resolveOne corpus st i c) j
      rw [resolveOne_countIdx_other corpus st i c j hij] at h1
      split at h1 <;> split <;> omega

theorem runFrom_countIdx_lt (corpus : List Document) :
    ∀ (cs : List Citation) (i : Nat) (st : RState) (j : Nat), j < i →
      countIdx (runFrom corpus i st cs).resolutions j =
        countIdx st.resolutions j := by
  intro cs
  induction cs with
  | nil => intro i st j _; rw [runFrom]
  | cons c rest ih =>
    intro i st j hj
    rw [runFrom, ih (i + 1) _ j (by omega),
      resolveOne_countIdx_other corpus st i c j (by omega)]

theorem runFrom_bucketOf_lt (corpus : List Document) :
    ∀ (cs : List Citation) (i : Nat) (st : RState) (j : Nat), j < i →
      bucketOf (runFrom corpus i st cs).resolutions j =
        bucketOf st.resolutions j := by
  intro cs
  induction cs with
  | nil => intro i st j _; rw [runFrom]
  | cons c rest ih =>
    intro i st j hj
    rw [runFrom, ih (i + 1) _ j (by omega),
      resolveOne_bucketOf_other corpus st i c j (by omega)]

theorem runFrom_countIdx_nonopinion (corpus : List Document) :
    ∀ (cs : List Citation) (i : Nat) (st : RState) (k : Nat),
      cs.get? k = some .nonopinion →
      countIdx (runFrom corpus i st cs).resolutions (i + k) =
        countIdx st.resolutions (i + k) := by
  intro cs
  induction cs with
  | nil => intro i st k h; simp at h
  | cons c rest ih =>
    intro i st k h
    cases k with
    | zero =>
      have hc : c = Citation.nonopinion := by simpa using h
      subst hc
      rw [runFrom]
      simp only [Nat.add_zero]
      rw [runFrom_countIdx_lt corpus rest (i + 1) _ i (by omega)]
      rfl
    | succ k' =>
      rw [runFrom, show i + (k' + 1) = (i + 1) + k' from by omega,
        ih (i + 1) (resolveOne corpus st i c) k' (by simpa using h)]
      exact resolveOne_countIdx_other corpus st i c _ (by omega)

/-- C2: in every resolution map produced by `do_resolve_citations`, each
mention (identified by its position in the input sequence) sits in at most
one bucket and is never duplicated, and a `Nonopinion` mention appears in no
bucket at all, not even the `NO_MATCH` bucket. -/
theorem do_resolve_citations_no_duplicates (corpus : List Document)
    (cs : List Citation) (j : Nat) :
    countIdx (do_resolve_citations corpus cs) j ≤ 1 ∧
    (∀ c, cs.get? j = some c → c = Citation.nonopinion →
      countIdx (do_resolve_citations corpus cs) j = 0) := by
  constructor
  · have h := runFrom_countIdx corpus cs 0 initState j
    rw [if_pos (Nat.zero_le j)] at h
    simpa [do_resolve_citations, initState, countIdx] using h
  · intro c hc hnon
    subst hnon
    have h := runFrom_countIdx_nonopinion corpus cs 0 initState j hc
    rw [Nat.zero_add] at h
    simpa [do_resolve_citations, initState, countIdx] using h

/-- Witness for C2 at a single `Nonopinion` mention: it is absent from the
map (count zero, hence also at most one occurrence). -/
theorem do_resolve_citations_no_duplicates_witness :
    countIdx (do_resolve_citations [] [Citation.nonopinion]) 0 ≤ 1 ∧
    countIdx (do_resolve_citations [] [Citation.nonopinion]) 0 = 0 :=
  ⟨(do_resolve_citations_no_duplicates [] [Citation.nonopinion] 0).1,
   (do_resolve_citations_no_duplicates [] [Citation.nonopinion] 0).2
     Citation.nonopinion rfl rfl⟩

theorem runFrom_id_inherits (corpus : List Document) :
    ∀ (cs : List Citation) (i : Nat) (st : RState),
      (∀ j, i ≤ j → countIdx st.resolutions j = 0) →
      ∀ k, cs.get? k = some .idCitation →
        bucketOf (runFrom corpus i st cs).resolutions (i + k) =
          (match k with
            | 0 => st.prevOutcome
            | k' + 1 =>
              bucketOf (runFrom corpus i st cs).resolutions (i + k')) := by
  intro cs
  induction cs with
  | nil => intro i st _ k h; simp at h
  | cons c rest ih =>
    intro i st hinv k hk
    have hinv' : ∀ j, i + 1 ≤ j →
        countIdx (resolveOne corpus st i c).resolutions j = 0 := by
      intro j hj
      rw [resolveOne_countIdx_other corpus st i c j (by omega)]
      exact hinv j (by omega)
    cases k with
    | zero =>
      have hc : c = Citation.idCitation := by simpa using hk
      subst hc
      rw [runFrom]
      simp only [Nat.add_zero]
      rw [runFrom_bucketOf_lt corpus rest (i + 1) _ i (by omega)]
      cases hp : st.prevOutcome with
      | some r =>
        have hone : resolveOne corpus st i Citation.idCitation =
            { resolutions := addTo r i st.resolutions, seen := st.seen,
              prevOutcome := some r } := by
          rw [resolveOne, hp]
        rw [hone]
        exact bucketOf_addTo_self r i _ (hinv i (le_refl i))
      | none =>
        have hone : resolveOne corpus st i Citation.idCitation =
            { st with prevOutcome := none } := by
          rw [resolveOne, hp]
        rw [hone]
        exact bucketOf_none_of_countIdx_zero _ _ (hinv i (le_refl i))
    | succ k' =>
      have hk' : rest.get? k' = some Citation.idCitation := by simpa using hk
      have hIH := ih (i + 1) (resolveOne corpus st i c) hinv' k' hk'
      show bucketOf (runFrom corpus i st (c :: rest)).resolutions (i + (k' + 1)) =
        bucketOf (runFrom corpus i st (c :: rest)).resolutions (i + k')
      rw [runFrom]
      cases k' with
      | zero =>
        have hIH0 : bucketOf (runFrom corpus (i + 1)
            (resolveOne corpus st i c) rest).resolutions (i + 1) =
            (resolveOne corpus st i c).prevOutcome := by
          simpa using hIH
        rw [show i + (0 + 1) = i + 1 from by omega, hIH0]
        show (resolveOne corpus st i c).prevOutcome =
          bucketOf (runFrom corpus (i + 1)
            (resolveOne corpus st i c) rest).resolutions i
        rw [runFrom_bucketOf_lt corpus rest (i + 1) _ i (by omega)]
        exact (resolveOne_prev_bucket corpus st i c (hinv i (le_refl i))).symm
      | succ k'' =>
        have hIH1 : bucketOf (runFrom corpus (i + 1)
            (resolveOne corpus st i c) rest).resolutions ((i + 1) + (k'' + 1)) =
            bucketOf (runFrom corpus (i + 1)
              (resolveOne corpus st i c) rest).resolutions ((i + 1) + k'') := by
          simpa using hIH
        rw [show i + (k'' + 1 + 1) = (i + 1) + (k'' + 1) from by omega,
          show i + (k'' + 1) = (i + 1) + k'' from by omega]
        exact hIH1

/-- C3: an `Id` mention lands in exactly the bucket of the immediately
preceding mention — including the `NO_MATCH` bucket, as in
`resolve([FullCase that matched nothing, Id])` — and is itself dropped
(absent from every bucket) when that mention was dropped or was a
`Nonopinion` mention; an `Id` with no preceding mention is dropped. -/
theorem do_resolve_citations_id_inherits :
    (∀ (corpus : List Document) (cs : List Citation) (j : Nat),
      cs.get? (j + 1) = some Citation.idCitation →
        bucketOf (do_resolve_citations corpus cs) (j + 1) =
          bucketOf (do_resolve_citations corpus cs) j) ∧
    (∀ (corpus : List Document) (cs : List Citation),
      cs.get? 0 = some Citation.idCitation →
        bucketOf (do_resolve_citations corpus cs) 0 = none) ∧
    do_resolve_citations corpusFixture [fullNA, Citation.idCitation] =
      [(Resource.noMatch, [0, 1])] := by
  refine ⟨?_, ?_, by decide⟩
  · intro corpus cs j hj
    have h := runFrom_id_inherits corpus cs 0 initState
      (fun j _ => rfl) (j + 1) hj
    simpa [do_resolve_citations] using h
  · intro corpus cs h0
    have h := runFrom_id_inherits corpus cs 0 initState
      (fun j _ => rfl) 0 h0
    simpa [do_resolve_citations, initState] using h

/-- Witness for C3 at the test pair `[full_na, id]`: the `Id` mention's
bucket equals the preceding unmatched full citation's bucket (`NO_MATCH`). -/
theorem do_resolve_citations_id_inherits_witness :
    bucketOf (do_resolve_citations corpusFixture [fullNA, Citation.idCitation]) 1 =
      bucketOf (do_resolve_citations corpusFixture [fullNA, Citation.idCitation]) 0 :=
  do_resolve_citations_id_inherits.1 corpusFixture [fullNA, Citation.idCitation] 0 rfl

theorem resolveShortSupra_multi (pool : List Document) (g : String) (i : Nat)
    (st : RState) (h2 : 2 ≤ pool.length) :
    (∀ d, pool.filter (fun d => matchGuess g d) = [d] →
        resolveShortSupra pool g i st =
          { st with
            resolutions := addTo (.opinion d.id) i st.resolutions
            prevOutcome := some (.opinion d.id) }) ∧
    ((pool.filter (fun d => matchGuess g d)).length ≠ 1 →
        resolveShortSupra pool g i st = { st with prevOutcome := none }) := by
  rcases pool with _ | ⟨d1, _ | ⟨d2, t⟩⟩
  · simp at h2
  · simp at h2
  · simp only [resolveShortSupra]
    cases hm : (d1 :: d2 :: t).filter (fun d => matchGuess g d) with
    | nil =>
      constructor
      · intro d hd
        simp at hd
      · intro _
        rfl
    | cons d ds =>
      cases ds with
      | nil =>
        constructor
        · intro d' hd'
          simp at hd'
          subst hd'
          rfl
        · intro hlen
          simp at hlen
      | cons d' ds' =>
        constructor
        · intro d'' hd''
          simp at hd''
        · intro _
          rfl

/-- C4: for a `ShortCase` mention whose volume+reporter candidate pool (built
from previously seen full-citation targets) has several candidates, a unique
antecedent-guess surname match resolves the mention to that candidate, while
zero or multiple matches drop the mention with the running state — the
resolution map and the seen registry — left unchanged. -/
theorem short_case_antecedent_tiebreak (corpus : List Document) (st : RState)
    (i : Nat) (v r g : String) (h2 : 2 ≤ (shortPool st.seen v r).length) :
    (∀ d, (shortPool st.seen v r).filter (fun d => matchGuess g d) = [d] →
        (resolveOne corpus st i (.shortCase v r g)).resolutions =
          addTo (.opinion d.id) i st.resolutions ∧
        (resolveOne corpus st i (.shortCase v r g)).seen = st.seen) ∧
    (((shortPool st.seen v r).filter (fun d => matchGuess g d)).length ≠ 1 →
        (resolveOne corpus st i (.shortCase v r g)).resolutions =
          st.resolutions ∧
        (resolveOne corpus st i (.shortCase v r g)).seen = st.seen) := by
  have hdef : resolveOne corpus st i (.shortCase v r g) =
      resolveShortSupra (shortPool st.seen v r) g i st := rfl
  obtain ⟨hA, hB⟩ := resolveShortSupra_multi (shortPool st.seen v r) g i st h2
  constructor
  · intro d hd
    rw [hdef, hA d hd]
    exact ⟨rfl, rfl⟩
  · intro hl
    rw [hdef, hB hl]
    exact ⟨rfl, rfl⟩

/-- Witness for C4 at the repository's tiebreaker test: after `[full7, full9]`
the pool for `1 U.S.` has two candidates and the guess `"Bar"` matches only
`Foo v. Bar`, so the short citation resolves to opinion 7 with the seen
registry unchanged. -/
theorem short_case_antecedent_tiebreak_witness :
    (resolveOne corpusFixture stateFixture 2
        (.shortCase "1" "U.S." "Bar")).resolutions =
      addTo (.opinion doc7.id) 2 stateFixture.resolutions ∧
    (resolveOne corpusFixture stateFixture 2
        (.shortCase "1" "U.S." "Bar")).seen = stateFixture.seen :=
  (short_case_antecedent_tiebreak corpusFixture stateFixture 2 "1" "U.S." "Bar"
    (by decide)).1 doc7 (by decide)

theorem resolveShortSupra_dropped (pool : List Document) (g : String) (i : Nat)
    (st : RState)
    (h : pool = [] ∨ (2 ≤ pool.length ∧
      (pool.filter (fun d => matchGuess g d)).length ≠ 1)) :
    resolveShortSupra pool g i st = { st with prevOutcome := none } := by
  rcases h with rfl | ⟨h2, hl⟩
  · rfl
  · exact (resolveShortSupra_multi pool g i st h2).2 hl

/-- C5: a `ShortCase` or `Supra` mention that cannot be disambiguated (empty
candidate pool, or zero or ambiguous antecedent match) leaves the resolution
map untouched — it is dropped entirely, not bucketed under `NO_MATCH`; in
particular `resolve([full_na, Supra "Bar"])` is exactly
`{NO_MATCH: [the full citation]}`, with the supra mention in no bucket. -/
theorem short_supra_dropped_not_no_match :
    (∀ (corpus : List Document) (st : RState) (i : Nat) (v r g : String),
      (shortPool st.seen v r = [] ∨
        (2 ≤ (shortPool st.seen v r).length ∧
          ((shortPool st.seen v r).filter (fun d => matchGuess g d)).length ≠ 1)) →
      (resolveOne corpus st i (.shortCase v r g)).resolutions =
        st.resolutions) ∧
    (∀ (corpus : List Document) (st : RState) (i : Nat) (g : String),
      (st.seen = [] ∨
        (2 ≤ st.seen.length ∧
          (st.seen.filter (fun d => matchGuess g d)).length ≠ 1)) →
      (resolveOne corpus st i (.supra g)).resolutions = st.resolutions) ∧
    do_resolve_citations corpusFixture [fullNA, .supra "Bar"] =
      [(Resource.noMatch, [0])] := by
  refine ⟨?_, ?_, by decide⟩
  · intro corpus st i v r g h
    have hdef : resolveOne corpus st i (.shortCase v r g) =
        resolveShortSupra (shortPool st.seen v r) g i st := rfl
    rw [hdef, resolveShortSupra_dropped _ _ _ _ h]
  · intro corpus st i g h
    have hdef : resolveOne corpus st i (.supra g) =
        resolveShortSupra st.seen g i st := rfl
    rw [hdef, resolveShortSupra_dropped _ _ _ _ h]

/-- Witness for C5 at the test pair `[full_na, Supra "Bar"]`: after the
unmatched full citation nothing has been seen, so the supra mention's pool is
empty and the resolution map is left exactly `{NO_MATCH: [0]}`. -/
theorem short_supra_dropped_not_no_match_witness :
    (resolveOne corpusFixture
        { resolutions := [(Resource.noMatch, [0])], seen := [],
          prevOutcome := some Resource.noMatch } 1
        (.supra "Bar")).resolutions = [(Resource.noMatch, [0])] :=
  short_supra_dropped_not_no_match.2.1 corpusFixture
    { resolutions := [(Resource.noMatch, [0])], seen := [],
      prevOutcome := some Resource.noMatch } 1 "Bar" (Or.inl rfl)

theorem stripTrailingPunct_comma (w : List Char) :
    stripTrailingPunct (w ++ [',']) = stripTrailingPunct w := by
  rw [stripTrailingPunct, stripTrailingPunct]
  congr 1
  rw [List.reverse_append]
  rw [show ([','] : List Char).reverse ++ w.reverse = ',' :: w.reverse from rfl]
  rw [List.dropWhile_cons, if_pos (by decide)]

theorem matchGuess_trailing_comma (g : String) (d : Document) :
    matchGuess (g ++ ",") d = matchGuess g d := by
  have h : (g ++ ",").toList = g.toList ++ [','] := by
    show (g ++ ",").data = g.data ++ [',']
    rw [String.data_append]
  rw [matchGuess, matchGuess, h, stripTrailingPunct_comma]

/-- C10: antecedent-guess matching tolerates trailing punctuation — a guess
with a trailing comma matches exactly like the bare guess, and concretely the
short citation with guess `"Bar,"` resolves to `Foo v. Bar` (opinion 7)
exactly as the bare guess `"Bar"` does. -/
theorem antecedent_guess_trailing_comma :
    (∀ (g : String) (d : Document), matchGuess (g ++ ",") d = matchGuess g d) ∧
    do_resolve_citations corpusFixture [full7, .shortCase "1" "U.S." "Bar,"] =
      [(Resource.opinion 7, [0, 1])] ∧
    do_resolve_citations corpusFixture [full7, .shortCase "1" "U.S." "Bar"] =
      [(Resource.opinion 7, [0, 1])] :=
  ⟨matchGuess_trailing_comma, by decide, by decide⟩

/-- The resolver model reproduces the remaining resolution pairs of the
repository's `test_citation_resolution`. -/
example : do_resolve_citations corpusFixture [full7] =
    [(Resource.opinion 7, [0])] := by decide

example : do_resolve_citations corpusFixture [full7, .fullCase "2" "F.3d" "2"] =
    [(Resource.opinion 7, [0]), (Resource.opinion 8, [1])] := by decide

example : do_resolve_citations corpusFixture [fullNA] =
    [(Resource.noMatch, [0])] := by decide

example : do_resolve_citations corpusFixture [full7, .supra "Bar"] =
    [(Resource.opinion 7, [0, 1])] := by decide

example : do_resolve_citations corpusFixture [full9, full11, .supra "Ipsum"] =
    [(Resource.opinion 9, [0]), (Resource.opinion 11, [1])] := by decide

example : do_resolve_citations corpusFixture
    [full7, full9, .shortCase "1" "U.S." "Bar"] =
    [(Resource.opinion 7, [0, 2]), (Resource.opinion 9, [1])] := by decide

example : do_resolve_citations corpusFixture
    [full7, full9, .shortCase "1" "U.S." "somethingwrong"] =
    [(Resource.opinion 7, [0]), (Resource.opinion 9, [1])] := by decide

example : do_resolve_citations corpusFixture
    [full9, full11, .shortCase "1" "U.S." "Ipsum"] =
    [(Resource.opinion 9, [0]), (Resource.opinion 11, [1])] := by decide

example : do_resolve_citations corpusFixture
    [full7, .shortCase "1" "F.3d" "somethingwrong"] =
    [(Resource.opinion 7, [0])] := by decide

example : do_resolve_citations corpusFixture
    [fullNA, .shortCase "1" "U.S." "Bar,"] =
    [(Resource.noMatch, [0])] := by decide

example : do_resolve_citations corpusFixture [full7, Citation.idCitation] =
    [(Resource.opinion 7, [0, 1])] := by decide

example : do_resolve_citations corpusFixture
    [full7, .shortCase "1" "F.3d" "somethingwrong", Citation.idCitation] =
    [(Resource.opinion 7, [0])] := by decide

example : do_resolve_citations corpusFixture [full7, fullNA, Citation.idCitation] =
    [(Resource.opinion 7, [0]), (Resource.noMatch, [1, 2])] := by decide

example : do_resolve_citations corpusFixture
    [full7, Citation.nonopinion, Citation.idCitation] =
    [(Resource.opinion 7, [0])] := by decide

example : do_resolve_citations corpusFixture [Citation.idCitation] = [] := by
  decide

example : do_resolve_citations corpusFixture [Citation.law] =
    [(Resource.noMatch, [0])] := by decide

example : do_resolve_citations corpusFixture [Citation.journal] =
    [(Resource.noMatch, [0])] := by decide
